import Mathlib

/-!
# Verification of the agentchat-memory core

A shallow embedding of the in-memory state engine of the agentchat-memory
repository (`src/memory-manager.ts`, `src/types.ts`), together with theorems
settling the specification claims about it.

Modelling conventions:
* JavaScript numbers carrying weights, ratios and token counts are modelled as
  exact rationals (`ℚ`); message counts and caps are `Nat`.
* `Date.now()` is modelled by an explicit `now : Int` argument to the
  operations that read the clock.
* The mutable `MemoryManager` methods become pure state transformers
  `MemoryState → ... → MemoryState`.
* JavaScript's stable `Array.prototype.sort` is modelled by the stable
  `List.insertionSort`.
-/

/-- A weighted persona trait (`types.ts`, `PersonaFacet`). -/
structure PersonaFacet where
  text : String
  weight : ℚ
  deriving DecidableEq

/-- The self-evolving persona model (`types.ts`, `PersonaModel`). -/
structure PersonaModel where
  version : Nat
  lastUpdatedTurn : Nat
  roles : List PersonaFacet
  style : List PersonaFacet
  heuristics : List PersonaFacet
  goals : List PersonaFacet
  antigoals : List PersonaFacet
  deriving DecidableEq

/-- Message roles (`types.ts`, `Message.role`). -/
inductive Role where
  | assistant
  | user
  | system
  | tool
  deriving DecidableEq

/-- A message in the conversation buffer (`types.ts`, `Message`). -/
structure Message where
  role : Role
  content : String
  timestamp : Int
  deriving DecidableEq

/-- Cumulative per-lane summaries (`types.ts`, `LaneSummaries`). -/
structure LaneSummaries where
  assistant : String
  system : String
  user : String
  lastSummarizedAt : Int
  deriving DecidableEq

/-- The persisted memory state (`types.ts`, `MemoryState`).  The
`createdAt`/`updatedAt` bookkeeping strings live at the persistence boundary
and play no role in the core's behaviour. -/
structure MemoryState where
  version : Nat
  agentId : String
  persona : PersonaModel
  laneSummaries : LaneSummaries
  recentMessages : List Message
  basePrompt : String
  normativeBlock : String
  deriving DecidableEq

/-- Configuration (`types.ts`, `MemoryConfig`). -/
structure MemoryConfig where
  contextTokens : ℚ
  avgCharsPerToken : ℚ
  highRatio : ℚ
  lowRatio : ℚ
  keepRecentPerLane : Nat
  minReflectGapTurns : Nat
  decayPerPass : ℚ
  minKeepWeight : ℚ
  mergeAggressiveness : ℚ
  deriving DecidableEq

/-- Source constant `DEFAULT_CONFIG` from `types.ts`. -/
def DEFAULT_CONFIG : MemoryConfig where
  contextTokens := 8192
  avgCharsPerToken := 4
  highRatio := 7/10
  lowRatio := 1/2
  keepRecentPerLane := 4
  minReflectGapTurns := 3
  decayPerPass := 3/100
  minKeepWeight := 11/50
  mergeAggressiveness := 3/5

/-- Source function `createEmptyState` from `persistence.ts` (the fields the core uses). -/
def createEmptyState (agentId : String) (basePrompt : String) : MemoryState where
  version := 1
  agentId := agentId
  persona :=
    { version := 0, lastUpdatedTurn := 0, roles := [], style := [],
      heuristics := [], goals := [], antigoals := [] }
  laneSummaries := { assistant := "", system := "", user := "", lastSummarizedAt := 0 }
  recentMessages := []
  basePrompt := basePrompt
  normativeBlock := ""

/-- The externally mined persona update (`types.ts`, `PersonaUpdate`); a
category absent from the partial model is the empty list, matching the
`update.persona.roles || []` reads in `applyPersonaUpdate`. -/
structure PersonaUpdate where
  friction : ℚ
  confidence : ℚ
  roles : List PersonaFacet
  style : List PersonaFacet
  heuristics : List PersonaFacet
  goals : List PersonaFacet
  antigoals : List PersonaFacet
  deriving DecidableEq

/-! ## Persona engine (`applyPersonaUpdate`) -/

/-- JavaScript `String.prototype.toLowerCase`, modelled on the character
list. -/
def jsToLower (s : String) : String :=
  String.mk (s.data.map Char.toLower)

/-- JavaScript `String.prototype.trim`: strip leading and trailing
whitespace. -/
def jsTrim (s : String) : String :=
  String.mk (((s.data.dropWhile Char.isWhitespace).reverse.dropWhile
    Char.isWhitespace).reverse)

/-- The normalized dedup key `item.text.toLowerCase().trim()`. -/
def normKey (s : String) : String :=
  jsTrim (jsToLower s)

/-- The decay step: `arr.map(f => ({ ...f, weight: f.weight * decay }))`. -/
def aged (decay : ℚ) (arr : List PersonaFacet) : List PersonaFacet :=
  arr.map fun f => { f with weight := f.weight * decay }

/-- The `if (existing) { existing.weight = Math.min(1, 1 - (1 - existing.weight) * (1 - bump)) }`
branch of the merge loop: boost the first facet whose normalized key matches. -/
def boostFirst (bump : ℚ) (key : String) : List PersonaFacet → List PersonaFacet
  | [] => []
  | d :: rest =>
      if normKey d.text = key then
        { d with weight := min 1 (1 - (1 - d.weight) * (1 - bump)) } :: rest
      else
        d :: boostFirst bump key rest

/-- One iteration of the `for (const item of src)` merge loop in
`applyPersonaUpdate`. -/
def mergeOne (ma : ℚ) (dst : List PersonaFacet) (item : PersonaFacet) : List PersonaFacet :=
  let key := normKey item.text
  if dst.any fun d => decide (normKey d.text = key) then
    boostFirst (item.weight * ma) key dst
  else
    dst ++ [{ text := item.text, weight := min 1 (item.weight * (1/2) + 3/20) }]

/-- The whole merge loop over the incoming facets. -/
def mergeLoop (ma : ℚ) (dst : List PersonaFacet) (src : List PersonaFacet) :
    List PersonaFacet :=
  src.foldl (mergeOne ma) dst

/-- Descending-weight order used by `sort((a, b) => b.weight - a.weight)`. -/
def wGE (a b : PersonaFacet) : Prop :=
  b.weight ≤ a.weight

instance : DecidableRel wGE := fun a b => inferInstanceAs (Decidable (b.weight ≤ a.weight))

instance : IsTotal PersonaFacet wGE := ⟨fun a b => le_total b.weight a.weight⟩

instance : IsTrans PersonaFacet wGE := ⟨fun _ _ _ h h' => le_trans h' h⟩

/-- The `merge` closure inside `applyPersonaUpdate`: run the merge loop, drop
weak facets, sort by descending weight, cap. -/
def mergeCat (cfg : MemoryConfig) (dst src : List PersonaFacet) (cap : Nat) :
    List PersonaFacet :=
  (((mergeLoop cfg.mergeAggressiveness dst src).filter
      fun f => decide (cfg.minKeepWeight ≤ f.weight)).insertionSort wGE).take cap

/-- Source method `applyPersonaUpdate` from `memory-manager.ts`; `turnCounter` is the
manager's session counter. -/
def applyPersonaUpdate (cfg : MemoryConfig) (st : MemoryState) (upd : PersonaUpdate)
    (turnCounter : Nat) : MemoryState :=
  let decay := 1 - cfg.decayPerPass
  let p := st.persona
  let p1 : PersonaModel :=
    { p with
      roles := aged decay p.roles
      style := aged decay p.style
      heuristics := aged decay p.heuristics
      goals := aged decay p.goals
      antigoals := aged decay p.antigoals }
  let p2 : PersonaModel :=
    { version := p1.version + 1
      lastUpdatedTurn := turnCounter
      roles := mergeCat cfg p1.roles upd.roles 3
      style := mergeCat cfg p1.style upd.style 6
      heuristics := mergeCat cfg p1.heuristics upd.heuristics 8
      goals := mergeCat cfg p1.goals upd.goals 4
      antigoals := mergeCat cfg p1.antigoals upd.antigoals 6 }
  { st with persona := p2 }

/-! ## Lanes and the message buffer -/

/-- Summarizable lanes (`'assistant' | 'user' | 'system'`). -/
inductive Lane where
  | assistant
  | user
  | system
  deriving DecidableEq

/-- The role a lane selects. -/
def Lane.toRole : Lane → Role
  | .assistant => .assistant
  | .user => .user
  | .system => .system

/-- The lane's name string. -/
def Lane.name : Lane → String
  | .assistant => "assistant"
  | .user => "user"
  | .system => "system"

/-- JavaScript `String.prototype.toUpperCase`, modelled on the character
list. -/
def jsToUpper (s : String) : String :=
  String.mk (s.data.map Char.toUpper)

/-- Read one lane's summary from `laneSummaries`. -/
def laneGet (ls : LaneSummaries) : Lane → String
  | .assistant => ls.assistant
  | .user => ls.user
  | .system => ls.system

/-- Write one lane's summary in `laneSummaries`. -/
def laneSet (ls : LaneSummaries) : Lane → String → LaneSummaries
  | .assistant, s => { ls with assistant := s }
  | .user, s => { ls with user := s }
  | .system, s => { ls with system := s }

/-- Source method `addMessage` from `memory-manager.ts`; `now` models `Date.now()`. -/
def addMessage (st : MemoryState) (role : Role) (content : String) (now : Int) :
    MemoryState :=
  { st with recentMessages :=
      st.recentMessages ++ [{ role := role, content := content, timestamp := now }] }

/-- Source method `partitionMessages` from `memory-manager.ts`: the sub-sequence of the
buffer holding the given role, in order. -/
def partitionMessages (msgs : List Message) (r : Role) : List Message :=
  msgs.filter fun m => decide (m.role = r)

/-- Source method `getLaneForSummarization` from `memory-manager.ts`. -/
def getLaneForSummarization (cfg : MemoryConfig) (st : MemoryState) (lane : Lane) :
    String :=
  let messages := partitionMessages st.recentMessages lane.toRole
  let older := messages.take (messages.length - cfg.keepRecentPerLane)
  if older.length = 0 then ""
  else
    String.intercalate "\n\n"
      (older.map fun m => "- " ++ jsToUpper lane.name ++ ": " ++ m.content)

/-- Timestamp order used by `kept.sort((a, b) => a.timestamp - b.timestamp)`. -/
def tsLE (a b : Message) : Prop :=
  a.timestamp ≤ b.timestamp

instance : DecidableRel tsLE := fun a b => inferInstanceAs (Decidable (a.timestamp ≤ b.timestamp))

instance : IsTotal Message tsLE := ⟨fun a b => le_total a.timestamp b.timestamp⟩

instance : IsTrans Message tsLE := ⟨fun _ _ _ h h' => le_trans h h'⟩

/-- The tail of at most `keepN` messages of one role kept by
`applyLaneSummary` (`msgs.slice(Math.max(0, msgs.length - keepN))`). -/
def keptTail (cfg : MemoryConfig) (msgs : List Message) (r : Role) : List Message :=
  let part := partitionMessages msgs r
  part.drop (part.length - cfg.keepRecentPerLane)

/-- Source method `applyLaneSummary` from `memory-manager.ts`; `now` models `Date.now()`. -/
def applyLaneSummary (cfg : MemoryConfig) (st : MemoryState) (lane : Lane)
    (summary : String) (now : Int) : MemoryState :=
  let existing := laneGet st.laneSummaries lane
  let ls1 := laneSet st.laneSummaries lane
    (if existing ≠ "" then summary ++ "\n\n---\n\n" ++ existing else summary)
  let ls2 := { ls1 with lastSummarizedAt := now }
  let kept := keptTail cfg st.recentMessages .assistant
    ++ keptTail cfg st.recentMessages .user
    ++ keptTail cfg st.recentMessages .system
    ++ keptTail cfg st.recentMessages .tool
  { st with laneSummaries := ls2, recentMessages := List.insertionSort tsLE kept }

/-! ## Budget estimator -/

/-- Source method `estimateTokens` from `memory-manager.ts`: the character accumulation
loop followed by `Math.ceil(chars / avgCharsPerToken)`. -/
def estimateTokens (cfg : MemoryConfig) (st : MemoryState) : Int :=
  let chars0 := st.basePrompt.length + st.normativeBlock.length
    + st.laneSummaries.assistant.length + st.laneSummaries.system.length
    + st.laneSummaries.user.length
  let chars := st.recentMessages.foldl (fun acc m => acc + m.content.length + 32) chars0
  ⌈(chars : ℚ) / cfg.avgCharsPerToken⌉

/-- Source method `needsSummarization` from `memory-manager.ts`:
`estimated > contextTokens * highRatio`. -/
def needsSummarization (cfg : MemoryConfig) (st : MemoryState) : Prop :=
  cfg.contextTokens * cfg.highRatio < (estimateTokens cfg st : ℚ)

instance (cfg : MemoryConfig) (st : MemoryState) : Decidable (needsSummarization cfg st) :=
  inferInstanceAs (Decidable (_ < _))

/-! ## Context renderer -/

/-- The `sect` closure inside `renderPersonaBlock`. -/
def renderSect (title : String) (items : List PersonaFacet) : String :=
  if items.length = 0 then ""
  else title ++ ": " ++ String.intercalate "; " (items.map fun i => i.text)

/-- Source method `renderPersonaBlock` from `memory-manager.ts`. -/
def renderPersonaBlock (p : PersonaModel) : String :=
  if p.version = 0 then ""
  else
    String.intercalate "\n"
      ((["[DYNAMIC PERSONA v" ++ toString p.version ++ "]",
         renderSect "Roles" p.roles,
         renderSect "Style" p.style,
         renderSect "Heuristics" p.heuristics,
         renderSect "Goals" p.goals,
         renderSect "Avoid" p.antigoals]).filter fun s => decide (s ≠ ""))

/-- Source method `renderContext` from `memory-manager.ts`: conditional `parts.push` calls
become conditional singleton lists. -/
def renderContext (st : MemoryState) : String :=
  let parts :=
    (if st.basePrompt ≠ "" then ["[BASE IDENTITY]\n" ++ st.basePrompt] else [])
    ++ (if st.normativeBlock ≠ "" then ["[NORMATIVE POLICY]\n" ++ st.normativeBlock] else [])
    ++ (if renderPersonaBlock st.persona ≠ "" then [renderPersonaBlock st.persona] else [])
    ++ (if st.laneSummaries.assistant ≠ "" then
          ["[ASSISTANT HISTORY SUMMARY]\n" ++ st.laneSummaries.assistant] else [])
    ++ (if st.laneSummaries.system ≠ "" then
          ["[SYSTEM HISTORY SUMMARY]\n" ++ st.laneSummaries.system] else [])
    ++ (if st.laneSummaries.user ≠ "" then
          ["[USER HISTORY SUMMARY]\n" ++ st.laneSummaries.user] else [])
  String.intercalate "\n\n---\n\n" parts

/-! ## Spec-side reference definitions

These are written from the specification's words (not from the source) and
are compared with the source translations in the refinement theorems. -/

/-- Written from the spec's words: the boost sets the weight to
`1 − (1 − decayedWeight) × (1 − incomingWeight × mergeAggressiveness)`,
stated without the source's `Math.min(1, ·)` clamp. -/
def boostFirstSpec (bump : ℚ) (key : String) : List PersonaFacet → List PersonaFacet
  | [] => []
  | d :: rest =>
      if normKey d.text = key then
        { d with weight := 1 - (1 - d.weight) * (1 - bump) } :: rest
      else
        d :: boostFirstSpec bump key rest

/-- Written from the spec's words: boost a matching facet, else insert with
weight `min(1, incomingWeight × 0.5 + 0.15)`. -/
def mergeOneSpec (ma : ℚ) (dst : List PersonaFacet) (item : PersonaFacet) :
    List PersonaFacet :=
  if dst.any fun d => decide (normKey d.text = normKey item.text) then
    boostFirstSpec (item.weight * ma) (normKey item.text) dst
  else
    dst ++ [{ text := item.text, weight := min 1 (item.weight * (1/2) + 3/20) }]

/-- Written from the spec's words: the whole merge pass over the incoming
facets. -/
def mergeLoopSpec (ma : ℚ) (dst : List PersonaFacet) (src : List PersonaFacet) :
    List PersonaFacet :=
  src.foldl (mergeOneSpec ma) dst

/-- All weights of a facet list lie in `[0, 1]`. -/
def WIn01 (l : List PersonaFacet) : Prop :=
  ∀ f ∈ l, 0 ≤ f.weight ∧ f.weight ≤ 1

/-! ## Concrete inputs and auxiliary models used by the theorems -/

/-- The concrete state of the claim's example: one existing `helper` role
facet of weight 0.8. -/
def exampleStateC1 : MemoryState :=
  { createEmptyState "a" "" with
    persona := { version := 1, lastUpdatedTurn := 0,
                 roles := [{ text := "helper", weight := 4/5 }], style := [],
                 heuristics := [], goals := [], antigoals := [] } }

/-- The concrete update of the claim's example: incoming `Helper` of
weight 0.5. -/
def exampleUpdateC1 : PersonaUpdate :=
  { friction := 0, confidence := 0, roles := [{ text := "Helper", weight := 1/2 }],
    style := [], heuristics := [], goals := [], antigoals := [] }

/-- Concrete destination category for the C10 witness. -/
def dstC10 : List PersonaFacet :=
  [{ text := "helper", weight := 4/5 }]

/-- Concrete incoming facet for the C10 witness. -/
def itemC10 : PersonaFacet :=
  { text := "Helper", weight := 1/2 }

/-- The normalized dedup keys of a category. -/
def keysOf (l : List PersonaFacet) : List String :=
  l.map fun f => normKey f.text

/-- The per-category invariant of claim C4: bounded by the cap, sorted by
descending weight, all weights at least `minKeepWeight`, and distinct
normalized keys preserved from the pre-state. -/
def catOK (cfg : MemoryConfig) (cap : Nat) (pre post : List PersonaFacet) : Prop :=
  post.length ≤ cap
  ∧ List.Sorted wGE post
  ∧ (∀ f ∈ post, cfg.minKeepWeight ≤ f.weight)
  ∧ ((keysOf pre).Nodup → (keysOf post).Nodup)

/-- Written from the spec's words: the last `n` messages of a list. -/
def lastNSpec (n : Nat) (l : List Message) : List Message :=
  (l.reverse.take n).reverse

/-- Sequential summaries applied to an initially empty assistant lane: the
concrete result of the C2 witness instance. -/
def stC2 : MemoryState :=
  createEmptyState "a" ""

/-- Written from the spec's words:
`ceil(totalChars / avgCharsPerToken)` where `totalChars` sums the lengths of
`basePrompt`, `normativeBlock`, the three lane summaries, and
`content.length + 32` per buffered message. -/
def estimateTokensSpec (cfg : MemoryConfig) (st : MemoryState) : Int :=
  ⌈((st.basePrompt.length + st.normativeBlock.length
      + st.laneSummaries.assistant.length + st.laneSummaries.system.length
      + st.laneSummaries.user.length
      + ((st.recentMessages.map fun m => m.content.length + 32).sum) : ℕ) : ℚ)
    / cfg.avgCharsPerToken⌉

/-- Written from the spec's words: a lane's messages excluding its last `n`
ones. -/
def olderSliceSpec (n : Nat) (l : List Message) : List Message :=
  (l.reverse.drop n).reverse

/-- The C7 example state: five `user "hi"` then five `assistant "ok"`
messages added to the empty state. -/
def exampleStateC7 : MemoryState :=
  addMessage (addMessage (addMessage (addMessage (addMessage
    (addMessage (addMessage (addMessage (addMessage (addMessage
      (createEmptyState "a" "") .user "hi" 0) .user "hi" 1) .user "hi" 2) .user "hi" 3)
      .user "hi" 4) .assistant "ok" 5) .assistant "ok" 6) .assistant "ok" 7)
      .assistant "ok" 8) .assistant "ok" 9

/-- Written from the spec's words: the optional category line
`"{Title}: {text1}; {text2}; ..."`, emitted only when the category is
non-empty. -/
def specCatLine (title : String) (items : List PersonaFacet) : List String :=
  if items = [] then []
  else [title ++ ": " ++ String.intercalate "; " (items.map fun i => i.text)]

/-- Written from the spec's words: the persona block — header
`"[DYNAMIC PERSONA v{n}]"` followed by one line per non-empty category in
the fixed order Roles, Style, Heuristics, Goals, Avoid. -/
def personaBlockSpec (p : PersonaModel) : String :=
  String.intercalate "\n"
    (("[DYNAMIC PERSONA v" ++ toString p.version ++ "]")
      :: (specCatLine "Roles" p.roles ++ specCatLine "Style" p.style
          ++ specCatLine "Heuristics" p.heuristics ++ specCatLine "Goals" p.goals
          ++ specCatLine "Avoid" p.antigoals))

/-- Written from the spec's words: the fixed-order composition of the
optional sections, joined with `"\n\n---\n\n"`; the persona block appears
iff `persona.version > 0`. -/
def renderContextSpec (st : MemoryState) : String :=
  String.intercalate "\n\n---\n\n"
    ((if st.basePrompt = "" then [] else ["[BASE IDENTITY]\n" ++ st.basePrompt])
      ++ (if st.normativeBlock = "" then [] else
            ["[NORMATIVE POLICY]\n" ++ st.normativeBlock])
      ++ (if 0 < st.persona.version then [personaBlockSpec st.persona] else [])
      ++ (if st.laneSummaries.assistant = "" then [] else
            ["[ASSISTANT HISTORY SUMMARY]\n" ++ st.laneSummaries.assistant])
      ++ (if st.laneSummaries.system = "" then [] else
            ["[SYSTEM HISTORY SUMMARY]\n" ++ st.laneSummaries.system])
      ++ (if st.laneSummaries.user = "" then [] else
            ["[USER HISTORY SUMMARY]\n" ++ st.laneSummaries.user]))

/-- The aggressive-decay configuration of the C9 counterexample. -/
def cfgC9 : MemoryConfig :=
  { DEFAULT_CONFIG with decayPerPass := 9/10 }

/-- The repeated update of the C9 counterexample. -/
def updC9 : PersonaUpdate :=
  { friction := 0, confidence := 0, roles := [{ text := "x", weight := 7/50 }],
    style := [], heuristics := [], goals := [], antigoals := [] }

/-- The update used by the C9 witness. -/
def updC9w : PersonaUpdate :=
  { friction := 0, confidence := 0, roles := [{ text := "x", weight := 1/2 }],
    style := [], heuristics := [], goals := [], antigoals := [] }

/-! ## Runtime behaviour on out-of-contract lane keys (C8)

The TypeScript lane parameter is typed
`'assistant' | 'user' | 'system'`, but nothing checks it at runtime.  To
settle what the compiled JavaScript does when a caller passes any other
string, `laneSummaries` is modelled below as the object's string-keyed own
properties, with `undefined` reads and property-creating writes. -/

/-- JavaScript object property read `obj[k]`; `none` models `undefined`. -/
def jsGetProp (props : List (String × String)) (k : String) : Option String :=
  (props.find? fun p => decide (p.1 = k)).map fun p => p.2

/-- JavaScript object property write `obj[k] = v`: overwrite an existing own
property or create a new one. -/
def jsSetProp : List (String × String) → String → String → List (String × String)
  | [], k, v => [(k, v)]
  | p :: rest, k, v => if p.1 = k then (k, v) :: rest else p :: jsSetProp rest k v

/-- JavaScript truthiness of the `existing` read: `undefined` and `""` are
falsy. -/
def jsTruthy : Option String → Bool
  | none => false
  | some s => decide (s ≠ "")

/-- The slice of `MemoryState` that `applyLaneSummary` touches, with
`laneSummaries` as raw string-keyed properties. -/
structure JsMemoryState where
  laneProps : List (String × String)
  lastSummarizedAt : Int
  recentMessages : List Message
  deriving DecidableEq

/-- Source method `applyLaneSummary` under JavaScript runtime semantics for an arbitrary
`lane` string: for an unknown lane `laneSummaries[lane]` reads `undefined`
(falsy), so the else-branch assigns `laneSummaries[lane] = summary`,
creating the property; `lastSummarizedAt` is updated and the unconditional
buffer truncation still runs. -/
def applyLaneSummaryJs (cfg : MemoryConfig) (st : JsMemoryState) (lane : String)
    (summary : String) (now : Int) : JsMemoryState :=
  let existing := jsGetProp st.laneProps lane
  let newVal :=
    if jsTruthy existing then summary ++ "\n\n---\n\n" ++ existing.getD ""
    else summary
  { laneProps := jsSetProp st.laneProps lane newVal
    lastSummarizedAt := now
    recentMessages := List.insertionSort tsLE
      (keptTail cfg st.recentMessages .assistant
        ++ keptTail cfg st.recentMessages .user
        ++ keptTail cfg st.recentMessages .system
        ++ keptTail cfg st.recentMessages .tool) }

/-- The pre-state of the C8 failing input: the three documented lanes, empty,
and five buffered user messages. -/
def jsStateC8 : JsMemoryState :=
  { laneProps := [("assistant", ""), ("system", ""), ("user", "")]
    lastSummarizedAt := 0
    recentMessages :=
      [{ role := .user, content := "m1", timestamp := 1 },
       { role := .user, content := "m2", timestamp := 2 },
       { role := .user, content := "m3", timestamp := 3 },
       { role := .user, content := "m4", timestamp := 4 },
       { role := .user, content := "m5", timestamp := 5 }] }

lemma boostFirst_eq_spec (bump : ℚ) (key : String) (l : List PersonaFacet)
    (hb1 : bump ≤ 1) (hl : WIn01 l) :
    boostFirst bump key l = boostFirstSpec bump key l := by
  induction l with
  | nil => rfl
  | cons d rest ih =>
      have hd := hl d (List.mem_cons_self d rest)
      have hrest : WIn01 rest := fun f hf => hl f (List.mem_cons_of_mem d hf)
      by_cases hk : normKey d.text = key
      · have hle : 1 - (1 - d.weight) * (1 - bump) ≤ 1 := by nlinarith [hd.1, hd.2, hb1]
        simp [boostFirst, boostFirstSpec, hk, min_eq_right hle]
      · simp [boostFirst, boostFirstSpec, hk, ih hrest]

lemma boostFirst_bounds (bump : ℚ) (key : String) (l : List PersonaFacet)
    (hb0 : 0 ≤ bump) (hb1 : bump ≤ 1) (hl : WIn01 l) :
    WIn01 (boostFirst bump key l) := by
  induction l with
  | nil => simpa [boostFirst] using hl
  | cons d rest ih =>
      have hd := hl d (List.mem_cons_self d rest)
      have hrest : WIn01 rest := fun f hf => hl f (List.mem_cons_of_mem d hf)
      by_cases hk : normKey d.text = key
      · intro f hf
        simp only [boostFirst, if_pos hk] at hf
        rcases List.mem_cons.1 hf with h | h
        · subst h
          refine ⟨le_min (by norm_num) (by nlinarith [hd.1, hd.2]), min_le_left _ _⟩
        · exact hrest f h
      · intro f hf
        simp only [boostFirst, if_neg hk] at hf
        rcases List.mem_cons.1 hf with h | h
        · subst h; exact hd
        · exact ih hrest f h

lemma mergeOne_eq_spec (ma : ℚ) (dst : List PersonaFacet) (item : PersonaFacet)
    (hma0 : 0 ≤ ma) (hma1 : ma ≤ 1) (hdst : WIn01 dst)
    (hitem : 0 ≤ item.weight ∧ item.weight ≤ 1) :
    mergeOne ma dst item = mergeOneSpec ma dst item := by
  unfold mergeOne mergeOneSpec
  have hb1 : item.weight * ma ≤ 1 := by nlinarith [hitem.1, hitem.2]
  by_cases h : (dst.any fun d => decide (normKey d.text = normKey item.text)) = true
  · simp [h, boostFirst_eq_spec _ _ _ hb1 hdst]
  · simp [h]

lemma mergeOne_bounds (ma : ℚ) (dst : List PersonaFacet) (item : PersonaFacet)
    (hma0 : 0 ≤ ma) (hma1 : ma ≤ 1) (hdst : WIn01 dst)
    (hitem : 0 ≤ item.weight ∧ item.weight ≤ 1) :
    WIn01 (mergeOne ma dst item) := by
  unfold mergeOne
  have hb0 : 0 ≤ item.weight * ma := mul_nonneg hitem.1 hma0
  have hb1 : item.weight * ma ≤ 1 := by nlinarith [hitem.1, hitem.2]
  by_cases h : (dst.any fun d => decide (normKey d.text = normKey item.text)) = true
  · simpa [h] using boostFirst_bounds _ _ _ hb0 hb1 hdst
  · rw [Bool.not_eq_true] at h
    intro f hf
    simp only [h, Bool.false_eq_true, if_false] at hf
    rcases List.mem_append.1 hf with hmem | hmem
    · exact hdst f hmem
    · rcases List.mem_singleton.1 hmem with rfl
      refine ⟨le_min (by norm_num) (by nlinarith [hitem.1]), min_le_left _ _⟩

lemma mergeLoop_eq_spec (ma : ℚ) (dst src : List PersonaFacet)
    (hma0 : 0 ≤ ma) (hma1 : ma ≤ 1) (hdst : WIn01 dst) (hsrc : WIn01 src) :
    mergeLoop ma dst src = mergeLoopSpec ma dst src ∧ WIn01 (mergeLoop ma dst src) := by
  induction src generalizing dst with
  | nil => exact ⟨rfl, hdst⟩
  | cons item rest ih =>
      have hitem := hsrc item (List.mem_cons_self item rest)
      have hrest : WIn01 rest := fun f hf => hsrc f (List.mem_cons_of_mem item hf)
      have h1 := mergeOne_eq_spec ma dst item hma0 hma1 hdst hitem
      have h2 := mergeOne_bounds ma dst item hma0 hma1 hdst hitem
      have := ih (mergeOne ma dst item) h2 hrest
      refine ⟨?_, ?_⟩
      · show mergeLoop ma (mergeOne ma dst item) rest = mergeLoopSpec ma (mergeOneSpec ma dst item) rest
        rw [← h1]
        exact this.1
      · exact this.2

/-- C1. `applyPersonaUpdate` decays every weight by `(1 − decayPerPass)` and
then merges each incoming facet: a facet whose normalized key matches an
existing one boosts that facet to
`1 − (1 − decayedWeight) × (1 − incomingWeight × mergeAggressiveness)`
(never exceeding 1), and an unmatched facet is inserted with weight
`min(1, incomingWeight × 0.5 + 0.15)`.  For weights and
`mergeAggressiveness` in `[0, 1]` the source merge loop (whose boost is
clamped by `Math.min(1, ·)`) coincides with that description and keeps all
weights ≤ 1; and on the claim's concrete example (decay 0.03, existing
`helper` at 0.8, incoming `Helper` at 0.5, aggressiveness 0.6) the result is
a single `helper` facet of weight `0.8432`. -/
theorem C1_persona_merge :
    (∀ (ma : ℚ) (dst src : List PersonaFacet), 0 ≤ ma → ma ≤ 1 → WIn01 dst → WIn01 src →
      mergeLoop ma dst src = mergeLoopSpec ma dst src ∧ WIn01 (mergeLoop ma dst src))
    ∧ (applyPersonaUpdate DEFAULT_CONFIG exampleStateC1 exampleUpdateC1 0).persona.roles
        = [{ text := "helper", weight := 8432/10000 }] := by
  constructor
  · intro ma dst src hma0 hma1 hdst hsrc
    exact mergeLoop_eq_spec ma dst src hma0 hma1 hdst hsrc
  · have hc : normKey "helper" = normKey "Helper" := by decide
    norm_num [applyPersonaUpdate, mergeCat, mergeLoop, mergeOne, boostFirst, aged,
      createEmptyState, DEFAULT_CONFIG, wGE, hc, List.filter, exampleStateC1, exampleUpdateC1]

/-! ## Frame behaviour of the boost branch (C10) and category invariants (C4) -/

lemma boostFirst_texts (b : ℚ) (k : String) (l : List PersonaFacet) :
    (boostFirst b k l).map (fun f => f.text) = l.map (fun f => f.text) := by
  induction l with
  | nil => rfl
  | cons d rest ih =>
      by_cases hk : normKey d.text = k
      · simp [boostFirst, hk]
      · simp [boostFirst, hk, ih]

lemma boostFirst_set (b : ℚ) (k : String) (l : List PersonaFacet)
    (h : (l.any fun d => decide (normKey d.text = k)) = true) :
    ∃ i, ∃ hi : i < l.length,
      normKey (l.get ⟨i, hi⟩).text = k ∧
      boostFirst b k l = l.set i
        { text := (l.get ⟨i, hi⟩).text,
          weight := min 1 (1 - (1 - (l.get ⟨i, hi⟩).weight) * (1 - b)) } := by
  induction l with
  | nil => simp at h
  | cons d rest ih =>
      by_cases hk : normKey d.text = k
      · exact ⟨0, Nat.succ_pos _, hk, by simp [boostFirst, hk]⟩
      · have hrest : (rest.any fun d => decide (normKey d.text = k)) = true := by
          simpa [hk] using h
        obtain ⟨i, hi, hkey, heq⟩ := ih hrest
        exact ⟨i + 1, Nat.succ_lt_succ hi, hkey, by simp [boostFirst, hk, heq]⟩

/-- C10. When an incoming facet's normalized key matches an existing facet,
the merge step boosts exactly the first matching facet: the stored `text` is
kept verbatim (the incoming spelling is discarded), only the weight changes,
the category's text sequence is unchanged, and no facet is inserted. -/
theorem C10_boost_keeps_text (ma : ℚ) (dst : List PersonaFacet) (item : PersonaFacet)
    (h : (dst.any fun d => decide (normKey d.text = normKey item.text)) = true) :
    (mergeOne ma dst item).map (fun f => f.text) = dst.map (fun f => f.text)
    ∧ (mergeOne ma dst item).length = dst.length
    ∧ ∃ i, ∃ hi : i < dst.length,
        normKey (dst.get ⟨i, hi⟩).text = normKey item.text ∧
        mergeOne ma dst item = dst.set i
          { text := (dst.get ⟨i, hi⟩).text,
            weight := min 1 (1 - (1 - (dst.get ⟨i, hi⟩).weight)
              * (1 - item.weight * ma)) } := by
  have hunfold : mergeOne ma dst item = boostFirst (item.weight * ma) (normKey item.text) dst := by
    unfold mergeOne
    simp [h]
  refine ⟨?_, ?_, ?_⟩
  · rw [hunfold]; exact boostFirst_texts _ _ _
  · have := congrArg List.length (hunfold ▸ boostFirst_texts (item.weight * ma) (normKey item.text) dst)
    simpa using this
  · rw [hunfold]
    exact boostFirst_set _ _ _ h

/-- Witness for C10: the hypothesis holds for the concrete destination
`[helper ↦ 0.8]` and the incoming facet `Helper ↦ 0.5`. -/
theorem C10_boost_keeps_text_witness :
    (mergeOne (3/5) dstC10 itemC10).map (fun f => f.text) = dstC10.map (fun f => f.text)
    ∧ (mergeOne (3/5) dstC10 itemC10).length = dstC10.length
    ∧ ∃ i, ∃ hi : i < dstC10.length,
        normKey (dstC10.get ⟨i, hi⟩).text = normKey itemC10.text ∧
        mergeOne (3/5) dstC10 itemC10 = dstC10.set i
          { text := (dstC10.get ⟨i, hi⟩).text,
            weight := min 1 (1 - (1 - (dstC10.get ⟨i, hi⟩).weight)
              * (1 - itemC10.weight * (3/5))) } :=
  C10_boost_keeps_text (3/5) dstC10 itemC10 (by decide)

lemma keysOf_eq_map_texts (l : List PersonaFacet) :
    keysOf l = (l.map fun f => f.text).map normKey := by
  simp [keysOf, List.map_map, Function.comp]

lemma keysOf_boostFirst (b : ℚ) (k : String) (l : List PersonaFacet) :
    keysOf (boostFirst b k l) = keysOf l := by
  rw [keysOf_eq_map_texts, keysOf_eq_map_texts, boostFirst_texts]

lemma keysOf_aged (d : ℚ) (l : List PersonaFacet) : keysOf (aged d l) = keysOf l := by
  simp [keysOf, aged, List.map_map, Function.comp]

lemma keysOf_mergeOne_nodup (ma : ℚ) (dst : List PersonaFacet) (item : PersonaFacet)
    (h : (keysOf dst).Nodup) : (keysOf (mergeOne ma dst item)).Nodup := by
  by_cases hmatch : (dst.any fun d => decide (normKey d.text = normKey item.text)) = true
  · have : mergeOne ma dst item = boostFirst (item.weight * ma) (normKey item.text) dst := by
      unfold mergeOne
      simp [hmatch]
    rw [this, keysOf_boostFirst]
    exact h
  · rw [Bool.not_eq_true] at hmatch
    have hnotin : normKey item.text ∉ keysOf dst := by
      intro hmem
      rcases List.mem_map.1 hmem with ⟨d, hd, hkey⟩
      have := List.any_eq_false.1 hmatch d hd
      simp [hkey] at this
    have : mergeOne ma dst item
        = dst ++ [{ text := item.text, weight := min 1 (item.weight * (1/2) + 3/20) }] := by
      unfold mergeOne
      simp [hmatch]
    rw [this]
    simp only [keysOf, List.map_append, List.map_cons, List.map_nil]
    exact List.Nodup.append h (List.nodup_singleton _)
      (by simpa [keysOf, List.disjoint_singleton] using hnotin)

lemma keysOf_mergeLoop_nodup (ma : ℚ) (dst src : List PersonaFacet)
    (h : (keysOf dst).Nodup) : (keysOf (mergeLoop ma dst src)).Nodup := by
  induction src generalizing dst with
  | nil => exact h
  | cons item rest ih => exact ih _ (keysOf_mergeOne_nodup ma dst item h)

lemma mergeCat_invariants (cfg : MemoryConfig) (dst src : List PersonaFacet) (cap : Nat) :
    (mergeCat cfg dst src cap).length ≤ cap
    ∧ List.Sorted wGE (mergeCat cfg dst src cap)
    ∧ (∀ f ∈ mergeCat cfg dst src cap, cfg.minKeepWeight ≤ f.weight)
    ∧ ((keysOf dst).Nodup → (keysOf (mergeCat cfg dst src cap)).Nodup) := by
  refine ⟨?_, ?_, ?_, ?_⟩
  · simpa [mergeCat] using min_le_left cap _
  · exact List.Pairwise.sublist (List.take_sublist _ _) (List.sorted_insertionSort wGE _)
  · intro f hf
    have hf1 : f ∈ (((mergeLoop cfg.mergeAggressiveness dst src).filter
        fun f => decide (cfg.minKeepWeight ≤ f.weight)).insertionSort wGE) :=
      List.take_subset _ _ hf
    have hf2 := (List.perm_insertionSort wGE _).mem_iff.1 hf1
    have := List.of_mem_filter hf2
    exact of_decide_eq_true this
  · intro hpre
    have h1 := keysOf_mergeLoop_nodup cfg.mergeAggressiveness dst src hpre
    have h2 : (keysOf ((mergeLoop cfg.mergeAggressiveness dst src).filter
        fun f => decide (cfg.minKeepWeight ≤ f.weight))).Nodup := by
      refine List.Nodup.sublist ?_ h1
      exact List.Sublist.map _ (List.filter_sublist _)
    have h3 : (keysOf (((mergeLoop cfg.mergeAggressiveness dst src).filter
        fun f => decide (cfg.minKeepWeight ≤ f.weight)).insertionSort wGE)).Nodup := by
      refine (List.Perm.nodup_iff ?_).2 h2
      exact (List.perm_insertionSort wGE _).map _
    refine List.Nodup.sublist ?_ h3
    exact List.Sublist.map _ (List.take_sublist _ _)

/-- C4. After every `applyPersonaUpdate`, each persona category has length at
most its fixed cap (roles 3, style 6, heuristics 8, goals 4, antigoals 6), is
sorted by descending weight, keeps only facets of weight at least
`minKeepWeight`, and — when the pre-state's normalized texts were pairwise
distinct within the category — the post-state's are distinct too. -/
theorem C4_persona_category_invariants (cfg : MemoryConfig) (st : MemoryState)
    (upd : PersonaUpdate) (turn : Nat) :
    catOK cfg 3 st.persona.roles (applyPersonaUpdate cfg st upd turn).persona.roles
    ∧ catOK cfg 6 st.persona.style (applyPersonaUpdate cfg st upd turn).persona.style
    ∧ catOK cfg 8 st.persona.heuristics
        (applyPersonaUpdate cfg st upd turn).persona.heuristics
    ∧ catOK cfg 4 st.persona.goals (applyPersonaUpdate cfg st upd turn).persona.goals
    ∧ catOK cfg 6 st.persona.antigoals
        (applyPersonaUpdate cfg st upd turn).persona.antigoals := by
  have hcat : ∀ (pre : List PersonaFacet) (src : List PersonaFacet) (cap : Nat),
      catOK cfg cap pre (mergeCat cfg (aged (1 - cfg.decayPerPass) pre) src cap) := by
    intro pre src cap
    obtain ⟨h1, h2, h3, h4⟩ := mergeCat_invariants cfg (aged (1 - cfg.decayPerPass) pre) src cap
    exact ⟨h1, h2, h3, fun hpre => h4 (by rwa [keysOf_aged])⟩
  exact ⟨hcat _ _ 3, hcat _ _ 6, hcat _ _ 8, hcat _ _ 4, hcat _ _ 6⟩

/-- Witness for C4: at the empty state the pre-state keys are trivially
distinct, so the conditional part of the invariant fires. -/
theorem C4_persona_category_invariants_witness :
    (keysOf (applyPersonaUpdate DEFAULT_CONFIG (createEmptyState "a" "")
      exampleUpdateC1 0).persona.roles).Nodup :=
  (C4_persona_category_invariants DEFAULT_CONFIG (createEmptyState "a" "")
    exampleUpdateC1 0).1.2.2.2 (by simp [createEmptyState, keysOf])

/-! ## Lane truncation invariants (C3) -/

lemma keptTail_role (cfg : MemoryConfig) (msgs : List Message) (r : Role) :
    ∀ m ∈ keptTail cfg msgs r, m.role = r := by
  intro m hm
  have hmem : m ∈ partitionMessages msgs r := List.drop_subset _ _ hm
  have := List.of_mem_filter hmem
  exact of_decide_eq_true this

lemma keptTail_length (cfg : MemoryConfig) (msgs : List Message) (r : Role) :
    (keptTail cfg msgs r).length ≤ cfg.keepRecentPerLane := by
  unfold keptTail
  rw [List.length_drop]
  omega

lemma partition_keptTail (cfg : MemoryConfig) (msgs : List Message) (r r' : Role) :
    partitionMessages (keptTail cfg msgs r') r
      = if r' = r then keptTail cfg msgs r' else [] := by
  by_cases h : r' = r
  · subst h
    rw [if_pos rfl]
    exact List.filter_eq_self.mpr fun m hm =>
      decide_eq_true (keptTail_role cfg msgs r' m hm)
  · rw [if_neg h]
    refine List.filter_eq_nil_iff.mpr fun m hm => ?_
    have := keptTail_role cfg msgs r' m hm
    simp only [decide_eq_true_eq]
    intro hr
    exact h (this ▸ hr)

lemma applyLaneSummary_recentMessages (cfg : MemoryConfig) (st : MemoryState)
    (lane : Lane) (summary : String) (now : Int) :
    (applyLaneSummary cfg st lane summary now).recentMessages
      = List.insertionSort tsLE
          (keptTail cfg st.recentMessages .assistant
            ++ keptTail cfg st.recentMessages .user
            ++ keptTail cfg st.recentMessages .system
            ++ keptTail cfg st.recentMessages .tool) := by
  simp [applyLaneSummary]

lemma applyLaneSummary_partition_perm (cfg : MemoryConfig) (st : MemoryState)
    (lane : Lane) (summary : String) (now : Int) (r : Role) :
    (partitionMessages (applyLaneSummary cfg st lane summary now).recentMessages r).Perm
      (keptTail cfg st.recentMessages r) := by
  rw [applyLaneSummary_recentMessages]
  have hmid : (partitionMessages (List.insertionSort tsLE
      (keptTail cfg st.recentMessages .assistant
        ++ keptTail cfg st.recentMessages .user
        ++ keptTail cfg st.recentMessages .system
        ++ keptTail cfg st.recentMessages .tool)) r).Perm
      (partitionMessages
        (keptTail cfg st.recentMessages .assistant
          ++ keptTail cfg st.recentMessages .user
          ++ keptTail cfg st.recentMessages .system
          ++ keptTail cfg st.recentMessages .tool) r) :=
    (List.perm_insertionSort tsLE _).filter _
  refine hmid.trans ?_
  · have ha := partition_keptTail cfg st.recentMessages r Role.assistant
    have hu := partition_keptTail cfg st.recentMessages r Role.user
    have hs := partition_keptTail cfg st.recentMessages r Role.system
    have ht := partition_keptTail cfg st.recentMessages r Role.tool
    unfold partitionMessages at ha hu hs ht ⊢
    rw [List.filter_append, List.filter_append, List.filter_append, ha, hu, hs, ht]
    cases r <;> simp

lemma keptTail_eq_lastNSpec (cfg : MemoryConfig) (msgs : List Message) (r : Role) :
    keptTail cfg msgs r
      = lastNSpec cfg.keepRecentPerLane (partitionMessages msgs r) := by
  unfold keptTail lastNSpec
  rw [List.take_reverse, List.reverse_reverse]

/-- C3. Immediately after any `applyLaneSummary` call — whatever lane was
named and whether or not it had older messages — the rebuilt buffer contains,
for each of the four roles (including `tool`), exactly the last
`keepRecentPerLane` messages of that role from the pre-call buffer (hence at
most `keepRecentPerLane` per role), has total length at most
`4 × keepRecentPerLane`, and is sorted by ascending timestamp. -/
theorem C3_lane_truncation (cfg : MemoryConfig) (st : MemoryState) (lane : Lane)
    (summary : String) (now : Int) :
    (∀ r : Role,
      (partitionMessages (applyLaneSummary cfg st lane summary now).recentMessages r).length
        ≤ cfg.keepRecentPerLane)
    ∧ (∀ r : Role,
        (partitionMessages (applyLaneSummary cfg st lane summary now).recentMessages r).Perm
          (lastNSpec cfg.keepRecentPerLane (partitionMessages st.recentMessages r)))
    ∧ (applyLaneSummary cfg st lane summary now).recentMessages.length
        ≤ 4 * cfg.keepRecentPerLane
    ∧ List.Sorted tsLE (applyLaneSummary cfg st lane summary now).recentMessages := by
  refine ⟨?_, ?_, ?_, ?_⟩
  · intro r
    rw [(applyLaneSummary_partition_perm cfg st lane summary now r).length_eq]
    exact keptTail_length cfg st.recentMessages r
  · intro r
    rw [← keptTail_eq_lastNSpec]
    exact applyLaneSummary_partition_perm cfg st lane summary now r
  · rw [applyLaneSummary_recentMessages,
      (List.perm_insertionSort tsLE _).length_eq]
    simp only [List.length_append]
    have h1 := keptTail_length cfg st.recentMessages .assistant
    have h2 := keptTail_length cfg st.recentMessages .user
    have h3 := keptTail_length cfg st.recentMessages .system
    have h4 := keptTail_length cfg st.recentMessages .tool
    omega
  · rw [applyLaneSummary_recentMessages]
    exact List.sorted_insertionSort tsLE _

/-! ## Lane summary accumulation (C2) -/

lemma laneGet_laneSet_same (ls : LaneSummaries) (lane : Lane) (s : String) :
    laneGet (laneSet ls lane s) lane = s := by
  cases lane <;> rfl

lemma laneGet_laneSet_other (ls : LaneSummaries) (lane lane' : Lane) (s : String)
    (h : lane' ≠ lane) : laneGet (laneSet ls lane s) lane' = laneGet ls lane' := by
  cases lane <;> cases lane' <;> first
    | rfl
    | exact absurd rfl h

lemma laneGet_setTime (ls : LaneSummaries) (lane : Lane) (n : Int) :
    laneGet { ls with lastSummarizedAt := n } lane = laneGet ls lane := by
  cases lane <;> rfl

lemma applyLaneSummary_laneSummaries (cfg : MemoryConfig) (st : MemoryState)
    (lane : Lane) (summary : String) (now : Int) :
    (applyLaneSummary cfg st lane summary now).laneSummaries
      = { laneSet st.laneSummaries lane
            (if laneGet st.laneSummaries lane ≠ "" then
              summary ++ "\n\n---\n\n" ++ laneGet st.laneSummaries lane
            else summary) with
          lastSummarizedAt := now } := by
  simp [applyLaneSummary]

lemma string_append_ne_empty_right (a b : String) (h : b ≠ "") : a ++ b ≠ "" := by
  intro he
  have hlen := congrArg String.length he
  rw [String.length_append] at hlen
  have hb : b.length = 0 := by
    simpa using Nat.eq_zero_of_add_eq_zero_left (by simpa using hlen)
  exact h (by
    cases b with
    | mk data =>
        cases data with
        | nil => rfl
        | cons c cs => simp [String.length, List.length] at hb)

/-- C2. `applyLaneSummary(lane, s)` sets the named lane's summary to
`s ++ "\n\n---\n\n" ++ previous` when the previous summary was non-empty and
to exactly `s` otherwise, leaving the other lanes' summaries unchanged;
consequently — provided the first summary is non-empty or the lane already
held a non-empty summary — applying `s1` then `s2` leaves
`s2 ++ "\n\n---\n\n" ++ s1` as a prefix of the lane's summary.  (The proviso
is forced by `C2_seq_counterexample`: with an empty lane, applying `""` then
`s2` yields exactly `s2`.) -/
theorem C2_lane_summary_prepend (cfg : MemoryConfig) :
    (∀ (st : MemoryState) (lane : Lane) (s : String) (now : Int),
      (laneGet (applyLaneSummary cfg st lane s now).laneSummaries lane
        = if laneGet st.laneSummaries lane ≠ "" then
            s ++ "\n\n---\n\n" ++ laneGet st.laneSummaries lane
          else s)
      ∧ ∀ lane' : Lane, lane' ≠ lane →
          laneGet (applyLaneSummary cfg st lane s now).laneSummaries lane'
            = laneGet st.laneSummaries lane')
    ∧ ∀ (st : MemoryState) (lane : Lane) (s1 s2 : String) (n1 n2 : Int),
        s1 ≠ "" ∨ laneGet st.laneSummaries lane ≠ "" →
        ∃ rest,
          laneGet (applyLaneSummary cfg (applyLaneSummary cfg st lane s1 n1)
              lane s2 n2).laneSummaries lane
            = s2 ++ "\n\n---\n\n" ++ s1 ++ rest := by
  have hone : ∀ (st : MemoryState) (lane : Lane) (s : String) (now : Int),
      laneGet (applyLaneSummary cfg st lane s now).laneSummaries lane
        = if laneGet st.laneSummaries lane ≠ "" then
            s ++ "\n\n---\n\n" ++ laneGet st.laneSummaries lane
          else s := by
    intro st lane s now
    rw [applyLaneSummary_laneSummaries, laneGet_setTime, laneGet_laneSet_same]
  refine ⟨fun st lane s now => ⟨hone st lane s now, ?_⟩, ?_⟩
  · intro lane' h
    rw [applyLaneSummary_laneSummaries, laneGet_setTime, laneGet_laneSet_other _ _ _ _ h]
  · intro st lane s1 s2 n1 n2 h
    rw [hone, hone]
    by_cases he : laneGet st.laneSummaries lane ≠ ""
    · rw [if_pos he]
      have hne : s1 ++ "\n\n---\n\n" ++ laneGet st.laneSummaries lane ≠ "" :=
        string_append_ne_empty_right _ _ he
      rw [if_pos hne]
      exact ⟨"\n\n---\n\n" ++ laneGet st.laneSummaries lane, by
        rw [String.append_assoc (s2 ++ "\n\n---\n\n") s1, String.append_assoc s1]⟩
    · rw [if_neg he]
      have hs1 : s1 ≠ "" := h.resolve_right he
      rw [if_pos hs1]
      exact ⟨"", by rw [String.append_empty]⟩

/-- Witness for C2: with a non-empty first summary the sequencing part of
`C2_lane_summary_prepend` applies. -/
theorem C2_lane_summary_prepend_witness :
    ∃ rest,
      laneGet (applyLaneSummary DEFAULT_CONFIG
          (applyLaneSummary DEFAULT_CONFIG stC2 .user "a" 0) .user "b" 1).laneSummaries .user
        = "b" ++ "\n\n---\n\n" ++ "a" ++ rest :=
  (C2_lane_summary_prepend DEFAULT_CONFIG).2 stC2 .user "a" "b" 0 1 (Or.inl (by decide))

/-- Counterexample to C2 as literally stated: starting from an empty
assistant lane, applying summary `""` and then `"x"` yields the summary
`"x"`, of which `"x" ++ "\n\n---\n\n" ++ ""` (length 8) is not a prefix. -/
theorem C2_seq_counterexample :
    laneGet (applyLaneSummary DEFAULT_CONFIG
        (applyLaneSummary DEFAULT_CONFIG (createEmptyState "a" "") .assistant "" 0)
        .assistant "x" 1).laneSummaries .assistant = "x"
    ∧ ¬ ∃ rest,
        laneGet (applyLaneSummary DEFAULT_CONFIG
            (applyLaneSummary DEFAULT_CONFIG (createEmptyState "a" "") .assistant "" 0)
            .assistant "x" 1).laneSummaries .assistant
          = "x" ++ "\n\n---\n\n" ++ "" ++ rest := by
  have h : laneGet (applyLaneSummary DEFAULT_CONFIG
      (applyLaneSummary DEFAULT_CONFIG (createEmptyState "a" "") .assistant "" 0)
      .assistant "x" 1).laneSummaries .assistant = "x" := by decide
  refine ⟨h, ?_⟩
  rintro ⟨rest, hr⟩
  rw [h] at hr
  have hlen := congrArg String.length hr
  rw [String.length_append, String.length_append, String.length_append] at hlen
  have h1 : ("x" : String).length = 1 := rfl
  have h2 : ("\n\n---\n\n" : String).length = 7 := rfl
  have h3 : ("" : String).length = 0 := rfl
  rw [h1, h2, h3] at hlen
  omega

/-! ## Token estimate (C5) -/

lemma foldl_chars (l : List Message) (a : Nat) :
    l.foldl (fun acc m => acc + m.content.length + 32) a
      = a + (l.map fun m => m.content.length + 32).sum := by
  induction l generalizing a with
  | nil => simp
  | cons m rest ih =>
      rw [List.foldl_cons, ih, List.map_cons, List.sum_cons]
      ring

/-- C5. `estimateTokens` equals the ceiling of the summed character count
(base prompt, normative block, three lane summaries, and
`content.length + 32` per message) divided by `avgCharsPerToken`;
`needsSummarization` holds iff that estimate strictly exceeds
`contextTokens × highRatio`; and under the default configuration it holds
iff the estimate is at least 5735 (i.e. strictly exceeds
`8192 × 0.70 = 5734.4`), so it is false at 5734. -/
theorem C5_token_estimate (cfg : MemoryConfig) (st : MemoryState) :
    estimateTokens cfg st = estimateTokensSpec cfg st
    ∧ (needsSummarization cfg st
        ↔ cfg.contextTokens * cfg.highRatio < (estimateTokens cfg st : ℚ))
    ∧ (needsSummarization DEFAULT_CONFIG st
        ↔ 5735 ≤ estimateTokens DEFAULT_CONFIG st) := by
  refine ⟨?_, Iff.rfl, ?_⟩
  · unfold estimateTokens estimateTokensSpec
    dsimp only
    rw [foldl_chars]
  · unfold needsSummarization
    have hbudget : DEFAULT_CONFIG.contextTokens * DEFAULT_CONFIG.highRatio
        = 28672/5 := by norm_num [DEFAULT_CONFIG]
    rw [hbudget]
    constructor
    · intro h
      have h5 : (28672 : ℚ) < (estimateTokens DEFAULT_CONFIG st : ℚ) * 5 := by
        rw [div_lt_iff₀ (by norm_num : (0:ℚ) < 5)] at h
        exact h
      have h6 : (28672 : ℤ) < estimateTokens DEFAULT_CONFIG st * 5 := by
        exact_mod_cast h5
      omega
    · intro h
      have h5 : (5735 : ℚ) ≤ (estimateTokens DEFAULT_CONFIG st : ℚ) := by
        exact_mod_cast h
      linarith

/-- Witness for C5: the empty state needs no summarization (its estimate, 0,
is below the 5735 threshold). -/
theorem C5_token_estimate_witness :
    ¬ needsSummarization DEFAULT_CONFIG (createEmptyState "a" "") := by
  intro h
  have h2 := (C5_token_estimate DEFAULT_CONFIG (createEmptyState "a" "")).2.2.1 h
  have h3 : estimateTokens DEFAULT_CONFIG (createEmptyState "a" "") = 0 := by
    norm_num [estimateTokens, createEmptyState, DEFAULT_CONFIG]
  omega

/-! ## Lane extraction for summarization (C7) -/

lemma olderSliceSpec_eq_take (n : Nat) (l : List Message) :
    olderSliceSpec n l = l.take (l.length - n) := by
  unfold olderSliceSpec
  rw [List.drop_reverse, List.reverse_reverse]

/-- C7. `getLaneForSummarization(lane)` returns the lane's messages
excluding its last `keepRecentPerLane` ones, in chronological order, one
bullet `"- {LANE_UPPER}: {content}"` per message separated by blank lines,
and the empty string when that older slice is empty; on the claim's example
(5 × user "hi", 5 × assistant "ok", `keepRecentPerLane = 4`) the user lane
yields exactly `"- USER: hi"`. -/
theorem C7_get_lane_for_summarization (cfg : MemoryConfig) (st : MemoryState) (lane : Lane) :
    getLaneForSummarization cfg st lane
      = String.intercalate "\n\n"
          ((olderSliceSpec cfg.keepRecentPerLane
              (partitionMessages st.recentMessages lane.toRole)).map
            fun m => "- " ++ jsToUpper lane.name ++ ": " ++ m.content)
    ∧ (olderSliceSpec cfg.keepRecentPerLane
          (partitionMessages st.recentMessages lane.toRole) = [] →
        getLaneForSummarization cfg st lane = "")
    ∧ getLaneForSummarization DEFAULT_CONFIG exampleStateC7 .user = "- USER: hi" := by
  have hmain : getLaneForSummarization cfg st lane
      = String.intercalate "\n\n"
          ((olderSliceSpec cfg.keepRecentPerLane
              (partitionMessages st.recentMessages lane.toRole)).map
            fun m => "- " ++ jsToUpper lane.name ++ ": " ++ m.content) := by
    rw [olderSliceSpec_eq_take]
    unfold getLaneForSummarization
    by_cases h : (List.take ((partitionMessages st.recentMessages lane.toRole).length
        - cfg.keepRecentPerLane) (partitionMessages st.recentMessages lane.toRole)).length = 0
    · rw [if_pos h, List.length_eq_zero.mp h]
      rfl
    · rw [if_neg h]
  refine ⟨hmain, ?_, ?_⟩
  · intro hempty
    rw [hmain, hempty]
    rfl
  · decide

/-- Witness for C7: on the empty state the older slice is empty, so the
empty string is returned. -/
theorem C7_get_lane_for_summarization_witness :
    getLaneForSummarization DEFAULT_CONFIG (createEmptyState "a" "") .user = "" :=
  (C7_get_lane_for_summarization DEFAULT_CONFIG (createEmptyState "a" "") .user).2.1
    (by decide)

/-! ## Context renderer (C6) -/

lemma string_length_eq_zero_iff (s : String) : s.length = 0 ↔ s = "" := by
  constructor
  · intro h
    cases s with
    | mk data =>
        cases data with
        | nil => rfl
        | cons c cs => simp [String.length] at h
  · intro h
    subst h
    rfl

lemma intercalate_go_length (s : String) (l : List String) (acc : String) :
    acc.length ≤ (String.intercalate.go acc s l).length := by
  induction l generalizing acc with
  | nil => exact le_of_eq rfl
  | cons a as ih =>
      refine le_trans ?_ (ih (acc ++ s ++ a))
      rw [String.length_append, String.length_append]
      omega

lemma intercalate_cons_ne_empty (s a : String) (l : List String) (h : a ≠ "") :
    String.intercalate s (a :: l) ≠ "" := by
  intro he
  have hlen : (String.intercalate s (a :: l)).length = 0 := by
    rw [he]
    rfl
  have hle : a.length ≤ (String.intercalate s (a :: l)).length :=
    intercalate_go_length s l a
  have ha : a.length = 0 := by omega
  exact h ((string_length_eq_zero_iff a).1 ha)

lemma filter_ne_cons (s : String) (l : List String) (h : s ≠ "") :
    List.filter (fun x => decide (x ≠ "")) (s :: l)
      = s :: List.filter (fun x => decide (x ≠ "")) l := by
  simp [List.filter_cons, h]

lemma filter_renderSect_cons (title : String) (items : List PersonaFacet)
    (l : List String) (h : title.length ≠ 0) :
    List.filter (fun x => decide (x ≠ "")) (renderSect title items :: l)
      = specCatLine title items ++ List.filter (fun x => decide (x ≠ "")) l := by
  by_cases hi : items = []
  · subst hi
    have : renderSect title [] = "" := rfl
    rw [this]
    simp [specCatLine, List.filter_cons]
  · have hlen : items.length ≠ 0 := by
      intro hl
      exact hi (List.length_eq_zero.1 hl)
    have hsect : renderSect title items
        = title ++ ": " ++ String.intercalate "; " (items.map fun i => i.text) := by
      unfold renderSect
      rw [if_neg hlen]
    have hne : renderSect title items ≠ "" := by
      rw [hsect]
      intro he
      have := congrArg String.length he
      rw [String.length_append, String.length_append] at this
      simp [string_length_eq_zero_iff] at this
    rw [filter_ne_cons _ _ hne, hsect]
    simp [specCatLine, hi]

lemma header_ne_empty (n : Nat) :
    ("[DYNAMIC PERSONA v" ++ toString n ++ "]" : String) ≠ "" := by
  intro he
  have := congrArg String.length he
  rw [String.length_append, String.length_append] at this
  have h18 : ("[DYNAMIC PERSONA v" : String).length = 18 := rfl
  have h1 : ("]" : String).length = 1 := rfl
  rw [h18, h1] at this
  simp at this

lemma renderPersonaBlock_eq_spec (p : PersonaModel) (h : p.version ≠ 0) :
    renderPersonaBlock p = personaBlockSpec p := by
  unfold renderPersonaBlock personaBlockSpec
  rw [if_neg h]
  congr 1
  rw [filter_ne_cons _ _ (header_ne_empty p.version)]
  congr 1
  rw [filter_renderSect_cons _ _ _ (by decide), filter_renderSect_cons _ _ _ (by decide),
    filter_renderSect_cons _ _ _ (by decide), filter_renderSect_cons _ _ _ (by decide),
    filter_renderSect_cons _ _ _ (by decide)]
  simp [List.append_assoc]

/-- C6. `renderContext` — a pure function of the state in this embedding, so
two calls with no intervening mutation are byte-identical by construction —
produces exactly the spec's fixed-order composition: base identity and
normative policy sections when non-empty, the persona block iff
`persona.version > 0` (header plus one `"{Title}: {texts}"` line per
non-empty category, weights never rendered), then the assistant, system and
user lane-summary sections when non-empty, joined by `"\n\n---\n\n"`. -/
theorem C6_render_context (st : MemoryState) :
    renderContext st = renderContextSpec st := by
  unfold renderContext renderContextSpec
  dsimp only
  have e1 : (if st.basePrompt ≠ "" then ["[BASE IDENTITY]\n" ++ st.basePrompt] else [])
      = (if st.basePrompt = "" then [] else ["[BASE IDENTITY]\n" ++ st.basePrompt]) := by
    by_cases h : st.basePrompt = "" <;> simp [h]
  have e2 : (if st.normativeBlock ≠ "" then ["[NORMATIVE POLICY]\n" ++ st.normativeBlock]
        else [])
      = (if st.normativeBlock = "" then [] else
          ["[NORMATIVE POLICY]\n" ++ st.normativeBlock]) := by
    by_cases h : st.normativeBlock = "" <;> simp [h]
  have e3 : (if renderPersonaBlock st.persona ≠ "" then [renderPersonaBlock st.persona]
        else [])
      = (if 0 < st.persona.version then [personaBlockSpec st.persona] else []) := by
    rcases Nat.eq_zero_or_pos st.persona.version with hv | hv
    · have hz : renderPersonaBlock st.persona = "" := by
        unfold renderPersonaBlock
        rw [if_pos hv]
      rw [hz, if_neg (by simp), if_neg (by omega)]
    · have hnz : st.persona.version ≠ 0 := Nat.pos_iff_ne_zero.1 hv
      have hne : renderPersonaBlock st.persona ≠ "" := by
        rw [renderPersonaBlock_eq_spec st.persona hnz]
        exact intercalate_cons_ne_empty _ _ _ (header_ne_empty st.persona.version)
      rw [if_pos hne, if_pos hv, renderPersonaBlock_eq_spec st.persona hnz]
  have e4 : (if st.laneSummaries.assistant ≠ "" then
        ["[ASSISTANT HISTORY SUMMARY]\n" ++ st.laneSummaries.assistant] else [])
      = (if st.laneSummaries.assistant = "" then [] else
          ["[ASSISTANT HISTORY SUMMARY]\n" ++ st.laneSummaries.assistant]) := by
    by_cases h : st.laneSummaries.assistant = "" <;> simp [h]
  have e5 : (if st.laneSummaries.system ≠ "" then
        ["[SYSTEM HISTORY SUMMARY]\n" ++ st.laneSummaries.system] else [])
      = (if st.laneSummaries.system = "" then [] else
          ["[SYSTEM HISTORY SUMMARY]\n" ++ st.laneSummaries.system]) := by
    by_cases h : st.laneSummaries.system = "" <;> simp [h]
  have e6 : (if st.laneSummaries.user ≠ "" then
        ["[USER HISTORY SUMMARY]\n" ++ st.laneSummaries.user] else [])
      = (if st.laneSummaries.user = "" then [] else
          ["[USER HISTORY SUMMARY]\n" ++ st.laneSummaries.user]) := by
    by_cases h : st.laneSummaries.user = "" <;> simp [h]
  rw [e1, e2, e3, e4, e5, e6]

/-! ## Repeated merges of the same facet (C9) -/

lemma applyPersonaUpdate_roles (cfg : MemoryConfig) (st : MemoryState)
    (upd : PersonaUpdate) (n : Nat) :
    (applyPersonaUpdate cfg st upd n).persona.roles
      = mergeCat cfg (aged (1 - cfg.decayPerPass) st.persona.roles) upd.roles 3 := by
  simp [applyPersonaUpdate]

lemma mergeCat_nil_insert (cfg : MemoryConfig) (t : String) (w : ℚ)
    (hkeep : cfg.minKeepWeight ≤ min 1 (w * (1/2) + 3/20)) :
    mergeCat cfg [] [{ text := t, weight := w }] 3
      = [{ text := t, weight := min 1 (w * (1/2) + 3/20) }] := by
  unfold mergeCat mergeLoop
  rw [List.foldl_cons, List.foldl_nil]
  unfold mergeOne
  dsimp only
  simp only [List.any_nil, Bool.false_eq_true, if_false, List.nil_append,
    List.filter_cons, List.filter_nil, decide_eq_true hkeep, if_true]
  rfl

lemma mergeCat_single_boost (cfg : MemoryConfig) (t t' : String) (wd w : ℚ)
    (hkey : normKey t = normKey t')
    (hkeep : cfg.minKeepWeight
      ≤ min 1 (1 - (1 - wd) * (1 - w * cfg.mergeAggressiveness))) :
    mergeCat cfg [{ text := t, weight := wd }] [{ text := t', weight := w }] 3
      = [{ text := t,
           weight := min 1 (1 - (1 - wd) * (1 - w * cfg.mergeAggressiveness)) }] := by
  unfold mergeCat mergeLoop
  rw [List.foldl_cons, List.foldl_nil]
  unfold mergeOne
  dsimp only
  have hany : (([{ text := t, weight := wd }] : List PersonaFacet).any
      fun d => decide (normKey d.text = normKey t')) = true := by
    simp [hkey]
  rw [if_pos hany]
  have hboost : boostFirst (w * cfg.mergeAggressiveness) (normKey t')
      [{ text := t, weight := wd }]
      = [{ text := t,
           weight := min 1 (1 - (1 - wd) * (1 - w * cfg.mergeAggressiveness)) }] := by
    simp [boostFirst, hkey]
  rw [hboost]
  simp only [List.filter_cons, List.filter_nil, decide_eq_true hkeep, if_true]
  rfl

/-- C9 (amended). Under the default persona configuration
(`decayPerPass = 0.03`, `mergeAggressiveness = 0.6`,
`minKeepWeight = 0.22`), a facet newly introduced by `applyPersonaUpdate`
with mined weight `w ∈ [0.14, 1]` (so that it survives the keep filter) and
then merged again with the same text and weight never loses weight relative
to its value after the first call, and its weight stays at most 1.  The
restriction to the default decay rate is forced by
`C9_decay_counterexample`: for `decayPerPass` close to 1 the re-merged
weight drops and the facet can even be pruned. -/
theorem C9_merge_reinforce (t : String) (w : ℚ) (st : MemoryState)
    (upd : PersonaUpdate) (n1 n2 : Nat)
    (hpre : st.persona.roles = [])
    (hupd : upd.roles = [{ text := t, weight := w }])
    (hw1 : 7/50 ≤ w) (hw2 : w ≤ 1) :
    ∃ w1 w2 : ℚ,
      (applyPersonaUpdate DEFAULT_CONFIG st upd n1).persona.roles
        = [{ text := t, weight := w1 }]
      ∧ (applyPersonaUpdate DEFAULT_CONFIG
          (applyPersonaUpdate DEFAULT_CONFIG st upd n1) upd n2).persona.roles
        = [{ text := t, weight := w2 }]
      ∧ w1 ≤ w2 ∧ w2 ≤ 1 := by
  have hmin1 : min (1:ℚ) (w * (1/2) + 3/20) = w * (1/2) + 3/20 :=
    min_eq_right (by linarith)
  have hfirst : (applyPersonaUpdate DEFAULT_CONFIG st upd n1).persona.roles
      = [{ text := t, weight := w * (1/2) + 3/20 }] := by
    rw [applyPersonaUpdate_roles, hpre, hupd]
    show mergeCat DEFAULT_CONFIG (aged (1 - DEFAULT_CONFIG.decayPerPass) []) _ 3 = _
    rw [show aged (1 - DEFAULT_CONFIG.decayPerPass) ([] : List PersonaFacet) = [] from rfl]
    rw [mergeCat_nil_insert DEFAULT_CONFIG t w ?_, hmin1]
    rw [hmin1]
    show (11:ℚ)/50 ≤ w * (1/2) + 3/20
    linarith
  have haged : aged (1 - DEFAULT_CONFIG.decayPerPass)
      [{ text := t, weight := w * (1/2) + 3/20 }]
      = [{ text := t, weight := (w * (1/2) + 3/20) * (97/100) }] := by
    show aged (1 - 3/100) _ = _
    simp [aged]
    norm_num
  have f1 : (0:ℚ) ≤ 1 - (w * (1/2) + 3/20) * (97/100) := by linarith
  have f2 : (0:ℚ) ≤ 1 - w * (3/5) := by linarith
  have hraw1 : 1 - (1 - (w * (1/2) + 3/20) * (97/100)) * (1 - w * (3/5)) ≤ 1 := by
    nlinarith [mul_nonneg f1 f2]
  have hmono : w * (1/2) + 3/20
      ≤ 1 - (1 - (w * (1/2) + 3/20) * (97/100)) * (1 - w * (3/5)) := by
    nlinarith [mul_nonneg (by linarith : (0:ℚ) ≤ w - 7/50) (by linarith : (0:ℚ) ≤ 1 - w)]
  have hmin2 : min (1:ℚ) (1 - (1 - (w * (1/2) + 3/20) * (97/100)) * (1 - w * (3/5)))
      = 1 - (1 - (w * (1/2) + 3/20) * (97/100)) * (1 - w * (3/5)) :=
    min_eq_right hraw1
  have hsecond : (applyPersonaUpdate DEFAULT_CONFIG
      (applyPersonaUpdate DEFAULT_CONFIG st upd n1) upd n2).persona.roles
      = [{ text := t,
           weight := 1 - (1 - (w * (1/2) + 3/20) * (97/100)) * (1 - w * (3/5)) }] := by
    rw [applyPersonaUpdate_roles, hfirst, hupd, haged]
    have hboost := mergeCat_single_boost DEFAULT_CONFIG t t
      ((w * (1/2) + 3/20) * (97/100)) w rfl ?_
    · rw [show DEFAULT_CONFIG.mergeAggressiveness = 3/5 from rfl] at hboost
      rw [hboost, hmin2]
    · show (11:ℚ)/50 ≤ min 1 (1 - (1 - (w * (1/2) + 3/20) * (97/100))
        * (1 - w * DEFAULT_CONFIG.mergeAggressiveness))
      rw [show DEFAULT_CONFIG.mergeAggressiveness = 3/5 from rfl]
      exact le_min (by norm_num) (by linarith)
  exact ⟨w * (1/2) + 3/20,
    1 - (1 - (w * (1/2) + 3/20) * (97/100)) * (1 - w * (3/5)),
    hfirst, hsecond, hmono, hraw1⟩

/-- Counterexample to C9 as literally stated (any `decayPerPass ∈ (0, 1)`):
with `decayPerPass = 0.9` the facet `x` enters at weight `0.22` on the first
merge, but on the second identical merge it decays to `0.022`, is boosted
only to `0.104152 < 0.22`, and is pruned — its weight decreases (indeed the
facet disappears). -/
theorem C9_decay_counterexample :
    (applyPersonaUpdate cfgC9 (createEmptyState "a" "") updC9 0).persona.roles
      = [{ text := "x", weight := 11/50 }]
    ∧ (applyPersonaUpdate cfgC9
        (applyPersonaUpdate cfgC9 (createEmptyState "a" "") updC9 0) updC9 0).persona.roles
      = [] := by
  constructor <;>
    norm_num [applyPersonaUpdate, mergeCat, mergeLoop, mergeOne, boostFirst, aged,
      createEmptyState, DEFAULT_CONFIG, cfgC9, updC9, wGE, List.filter]

/-- Witness for C9: the amended statement applies at `w = 1/2` from the
empty state. -/
theorem C9_merge_reinforce_witness :
    ∃ w1 w2 : ℚ,
      (applyPersonaUpdate DEFAULT_CONFIG (createEmptyState "a" "") updC9w 0).persona.roles
        = [{ text := "x", weight := w1 }]
      ∧ (applyPersonaUpdate DEFAULT_CONFIG
          (applyPersonaUpdate DEFAULT_CONFIG (createEmptyState "a" "") updC9w 0)
          updC9w 0).persona.roles
        = [{ text := "x", weight := w2 }]
      ∧ w1 ≤ w2 ∧ w2 ≤ 1 :=
  C9_merge_reinforce "x" (1/2) (createEmptyState "a" "") updC9w 0 0 rfl rfl
    (by norm_num) (by norm_num)

/-- C8. Contrary to the claim, `applyLaneSummary` does not reject an unknown
lane: called with lane `"bogus"` it returns normally and silently mutates
state — it creates the new property `laneSummaries["bogus"] = "oops"`,
updates `lastSummarizedAt`, and truncates the message buffer (five user
messages reduced to the last four). -/
theorem C8_unknown_lane_not_rejected :
    jsGetProp (applyLaneSummaryJs DEFAULT_CONFIG jsStateC8 "bogus" "oops" 9).laneProps
        "bogus" = some "oops"
    ∧ (applyLaneSummaryJs DEFAULT_CONFIG jsStateC8 "bogus" "oops" 9).lastSummarizedAt = 9
    ∧ (applyLaneSummaryJs DEFAULT_CONFIG jsStateC8 "bogus" "oops" 9).recentMessages
      = [{ role := .user, content := "m2", timestamp := 2 },
         { role := .user, content := "m3", timestamp := 3 },
         { role := .user, content := "m4", timestamp := 4 },
         { role := .user, content := "m5", timestamp := 5 }] := by
  refine ⟨?_, ?_, ?_⟩ <;> decide

/-- Witness for C1 at a concrete input: the hypotheses of the general part
hold at `ma = 3/5`, a singleton destination and a singleton source. -/
theorem C1_persona_merge_witness :
    mergeLoop (3/5) [{ text := "helper", weight := 97/125 }]
        [{ text := "Helper", weight := 1/2 }]
      = mergeLoopSpec (3/5) [{ text := "helper", weight := 97/125 }]
        [{ text := "Helper", weight := 1/2 }]
    ∧ WIn01 (mergeLoop (3/5) [{ text := "helper", weight := 97/125 }]
        [{ text := "Helper", weight := 1/2 }]) :=
  C1_persona_merge.1 (3/5) _ _ (by norm_num) (by norm_num)
    (by intro f hf; rcases List.mem_singleton.1 hf with rfl; constructor <;> norm_num)
    (by intro f hf; rcases List.mem_singleton.1 hf with rfl; constructor <;> norm_num)
